import Mathlib

/-!
Shallow embedding of `src/blog-post-manager/src/main.ts` (a browser CRUD
blog-post manager).  The mutable module state (`posts`, `currentEditingId`,
the `localStorage` slot under key `"blogPosts"`) is modelled as an explicit
`AppState` record threaded through the operations.  Environment-produced
values (`crypto.randomUUID()`, `new Date()`, the user's answer to the
delete `confirm` dialog, the current values of the filter input and sort
selector) are passed as explicit parameters.  JavaScript `Date` values are
modelled by their millisecond epoch value (`getTime()`) as a `Nat`;
`JSON.stringify` turns a `Date` into a string (via `toJSON`/ISO form) and
`new Date(string)` parses it back, which we model by an explicit decimal
string codec (`encodeTimestamp` / `decodeTimestamp`).  DOM rendering
(`renderPosts`, `createPostHTML`) has no effect on the store and is not
modelled.
-/

namespace BlogPostManager

/-- The `BlogPost` interface of `main.ts`: id, title, author, body and a
timestamp (a JS `Date`, modelled by its millisecond value). -/
structure BlogPost where
  id : String
  title : String
  author : String
  body : String
  timestamp : Nat
deriving DecidableEq, Repr

/-- The shape of one post inside the persisted JSON array: the same fields,
with the timestamp serialized as a string (JS `JSON.stringify` serializes a
`Date` through its string form). -/
structure StoredPost where
  id : String
  title : String
  author : String
  body : String
  timestamp : String
deriving DecidableEq, Repr

/-- Content of the `localStorage` slot `"blogPosts"`: either a parseable
JSON array of posts, or anything unparseable as such (malformed JSON, or a
JSON value on which `.map` throws) — both failure shapes land in the
`catch` branch of `loadFromStorage`, so they are identified as `garbage`. -/
inductive StoredData where
  | garbage : StoredData
  | list : List StoredPost → StoredData
deriving DecidableEq

/-- The module-level mutable state of `main.ts`: the `posts` array, the
`localStorage` slot (`none` = key absent), and `currentEditingId`. -/
structure AppState where
  posts : List BlogPost
  storage : Option StoredData
  currentEditingId : Option String
deriving DecidableEq

/-- State at script start: `let posts = []`, nothing stored yet,
`let currentEditingId = null`. -/
def initialState : AppState := { posts := [], storage := none, currentEditingId := none }

/-! ### Timestamp string codec (model of `Date` → JSON string → `Date`) -/

/-- Decimal digit as a character. -/
def digitChar (d : Nat) : Char := Char.ofNat (48 + d)

/-- Character back to a decimal digit. -/
def charDigit (c : Char) : Nat := c.toNat - 48

/-- Little-endian decimal digits of `n`, with explicit fuel so the
definition is structurally recursive. -/
def digitsLE (fuel n : Nat) : List Nat :=
  match fuel with
  | 0 => []
  | fuel + 1 => if n = 0 then [] else n % 10 :: digitsLE fuel (n / 10)

/-- Value of a little-endian digit list. -/
def valLE : List Nat → Nat
  | [] => 0
  | d :: ds => d + 10 * valLE ds

/-- Serialization of a timestamp to a string (model of the string form a
`Date` takes under `JSON.stringify`). -/
def encodeTimestamp (t : Nat) : String :=
  if t = 0 then "0" else String.mk (((digitsLE t t).map digitChar).reverse)

/-- Parsing a timestamp string back to a time value (model of
`new Date(post.timestamp)` on a string produced by serialization). -/
def decodeTimestamp (s : String) : Nat :=
  valLE (s.data.reverse.map charDigit)

/-- One post as it appears in the serialized JSON array. -/
def serializePost (p : BlogPost) : StoredPost :=
  { id := p.id, title := p.title, author := p.author, body := p.body,
    timestamp := encodeTimestamp p.timestamp }

/-- One element of the `parsed.map` step of `loadFromStorage`: the fields
are kept and the timestamp string is parsed back into a time value. -/
def parseStoredPost (sp : StoredPost) : BlogPost :=
  { id := sp.id, title := sp.title, author := sp.author, body := sp.body,
    timestamp := decodeTimestamp sp.timestamp }

/-! ### Store operations -/

/-- Model of `saveToStorage`: `localStorage.setItem('blogPosts', JSON.stringify(posts))` —
writes the whole current list into the storage slot. -/
def saveToStorage (s : AppState) : AppState :=
  { s with storage := some (StoredData.list (s.posts.map serializePost)) }

/-- Model of `loadFromStorage`: if the key is absent (`if (stored)` is false) the
state is untouched; if parsing or mapping throws, the `catch` sets
`posts = []`; otherwise `posts` becomes the parsed array with timestamps
re-parsed from their string form. -/
def loadFromStorage (s : AppState) : AppState :=
  match s.storage with
  | none => s
  | some StoredData.garbage => { s with posts := [] }
  | some (StoredData.list l) => { s with posts := l.map parseStoredPost }

/-- Model of `createPost(title, author, body)`: builds a post from the fresh id
(`crypto.randomUUID()`, here the parameter `newId`) and the current time
(`new Date()`, here `now`), `unshift`s it onto the front of `posts`, then
saves. -/
def createPost (title author body newId : String) (now : Nat) (s : AppState) : AppState :=
  saveToStorage { s with posts := ⟨newId, title, author, body, now⟩ :: s.posts }

/-- The step `Object.assign(post, ...)` with the three mutable fields, applied to the first
element whose id matches, in place: the rest of the list is untouched. -/
def updateFirst (id title author body : String) : List BlogPost → List BlogPost
  | [] => []
  | p :: ps =>
    if p.id = id then { p with title := title, author := author, body := body } :: ps
    else p :: updateFirst id title author body ps

/-- Model of `updatePost(id, title, author, body)`: `posts.find(p => p.id === id)`;
when found, the three mutable fields of that element are overwritten in
place and the list is saved; when absent, nothing happens. -/
def updatePost (id title author body : String) (s : AppState) : AppState :=
  match s.posts.find? (fun p => p.id == id) with
  | some _ => saveToStorage { s with posts := updateFirst id title author body s.posts }
  | none => s

/-- Model of `deletePost(id)`: gated by `confirm(...)` (the user's answer is the
parameter `confirmed`); when confirmed, `posts` is replaced by
`posts.filter(post => post.id !== id)` and saved (the subsequent
`renderPosts()` does not touch the store). -/
def deletePost (id : String) (confirmed : Bool) (s : AppState) : AppState :=
  if confirmed then saveToStorage { s with posts := s.posts.filter (fun p => p.id != id) }
  else s

/-- Model of `resetForm`: clears the form DOM and sets `currentEditingId = null`;
only the latter is store state. -/
def resetForm (s : AppState) : AppState := { s with currentEditingId := none }

/-- The comparator passed to `.sort`: for `sortBy === 'author'` it is
`a.author.localeCompare(b.author)` (modelled as lexicographic string
order), otherwise `b.timestamp.getTime() - a.timestamp.getTime()`
(descending time).  `sortRel key a b` holds when the comparator puts `a`
no later than `b` (comparator value `≤ 0`). -/
def sortRel (sortBy : String) (a b : BlogPost) : Prop :=
  if sortBy = "author" then a.author ≤ b.author else b.timestamp ≤ a.timestamp

instance (sortBy : String) : DecidableRel (sortRel sortBy) := fun a b => by
  unfold sortRel; infer_instance

instance (sortBy : String) : IsTotal BlogPost (sortRel sortBy) :=
  ⟨by intro a b; unfold sortRel; split <;> exact le_total _ _⟩

instance (sortBy : String) : IsTrans BlogPost (sortRel sortBy) :=
  ⟨by
    intro a b c
    unfold sortRel
    split
    · exact fun h1 h2 => le_trans h1 h2
    · exact fun h1 h2 => le_trans h2 h1⟩

/-- JS `hay.includes(sub)`: `sub` occurs contiguously inside `hay`. -/
def jsIncludes (hay sub : String) : Bool := decide (sub.data <:+: hay.data)

/-- JS `s.toLowerCase()`, modelled character by character (the app's data
is compared after lower-casing both sides). -/
def jsToLower (s : String) : String := String.mk (s.data.map Char.toLower)

/-- Model of `getFilteredAndSortedPosts`: reads the filter input (lower-cased) and
the sort selector; a truthy (nonempty) filter keeps the posts whose
lower-cased author `includes` it, a falsy one keeps a copy `[...posts]` of
the whole list; the copy is then sorted (JS `sort` mutates only this fresh
array, a stable sort per ES2019, modelled by `insertionSort`).  The
function returns the projection together with the untouched state. -/
def getFilteredAndSortedPosts (filterValue sortBy : String) (s : AppState) :
    List BlogPost × AppState :=
  let filterText := jsToLower filterValue
  let filtered :=
    if filterText = "" then s.posts
    else s.posts.filter (fun p => jsIncludes (jsToLower p.author) filterText)
  (List.insertionSort (sortRel sortBy) filtered, s)

/-- Model of `handleSubmit`: reads the form fields; `if (currentEditingId)`
is a JS truthiness test, true only when the editing id is non-null AND a
nonempty string, and then `updatePost` runs on it; otherwise (null editing
id, or the falsy empty string) `createPost` runs with a fresh id and the
current time; then `resetForm()` (the `renderPosts()` call does not touch
the store). -/
def handleSubmit (title author body newId : String) (now : Nat) (s : AppState) : AppState :=
  let s1 :=
    match s.currentEditingId with
    | some id =>
      if id = "" then createPost title author body newId now s
      else updatePost id title author body s
    | none => createPost title author body newId now s
  resetForm s1

/-- Creating a sequence of posts, last element of the list first (so the
head of `inputs` is the most recent creation). -/
def createMany (inputs : List (String × String × String × String × Nat)) (s : AppState) :
    AppState :=
  match inputs with
  | [] => s
  | (t, a, b, i, n) :: rest => createPost t a b i n (createMany rest s)

/-! ### Codec round-trip -/

theorem valLE_digitsLE (fuel : Nat) : ∀ n : Nat, n ≤ fuel → valLE (digitsLE fuel n) = n := by
  induction fuel with
  | zero =>
    intro n hn
    simp only [Nat.le_zero] at hn
    subst hn
    rfl
  | succ fuel ih =>
    intro n hn
    by_cases h0 : n = 0
    · subst h0; rfl
    · have hdiv : n / 10 ≤ fuel := by
        have : n / 10 < n := Nat.div_lt_self (Nat.pos_of_ne_zero h0) (by decide)
        omega
      simp only [digitsLE, if_neg h0, valLE, ih (n / 10) hdiv]
      omega

theorem mem_digitsLE_lt (fuel : Nat) :
    ∀ n d : Nat, d ∈ digitsLE fuel n → d < 10 := by
  induction fuel with
  | zero => intro n d hd; simp [digitsLE] at hd
  | succ fuel ih =>
    intro n d hd
    by_cases h0 : n = 0
    · subst h0; simp [digitsLE] at hd
    · simp only [digitsLE, if_neg h0, List.mem_cons] at hd
      rcases hd with h | h
      · subst h; exact Nat.mod_lt _ (by decide)
      · exact ih _ _ h

theorem charDigit_digitChar {d : Nat} (hd : d < 10) : charDigit (digitChar d) = d := by
  interval_cases d <;> decide

theorem decodeTimestamp_encodeTimestamp (t : Nat) :
    decodeTimestamp (encodeTimestamp t) = t := by
  by_cases h0 : t = 0
  · subst h0; decide
  · unfold encodeTimestamp decodeTimestamp
    rw [if_neg h0]
    show valLE (((((digitsLE t t).map digitChar).reverse).reverse).map charDigit) = t
    rw [List.reverse_reverse, List.map_map]
    have hmap : (digitsLE t t).map (charDigit ∘ digitChar) = (digitsLE t t).map id :=
      List.map_congr_left (fun d hd => charDigit_digitChar (mem_digitsLE_lt t t d hd))
    rw [hmap, List.map_id, valLE_digitsLE t t (le_refl t)]

theorem parseStoredPost_serializePost (p : BlogPost) :
    parseStoredPost (serializePost p) = p := by
  simp [parseStoredPost, serializePost, decodeTimestamp_encodeTimestamp]

/-! ### Claims -/

/-- Claim C8: persisting any list of posts via `saveToStorage` and then
reloading via `loadFromStorage` reproduces an equivalent list: the same
length and order, with equal ids, titles, authors, bodies and timestamps
for every post (timestamps go through their string serialization and are
parsed back). -/
theorem save_load_roundTrip (s : AppState) :
    (loadFromStorage (saveToStorage s)).posts = s.posts ∧
    (loadFromStorage (saveToStorage s)).posts.length = s.posts.length := by
  have h : (loadFromStorage (saveToStorage s)).posts =
      (s.posts.map serializePost).map parseStoredPost := rfl
  rw [h, List.map_map]
  have hcomp : parseStoredPost ∘ serializePost = id :=
    funext parseStoredPost_serializePost
  rw [hcomp, List.map_id]
  exact ⟨rfl, rfl⟩

/-- Claim C9: when the stored value is missing or unparseable,
`loadFromStorage` does not fail and the result is the empty post list.  A
missing key leaves `posts` untouched (and at the only call site, `init`,
`posts` is still `[]`, which the hypothesis `hinit` records); unparseable
data is caught and `posts` is reset to `[]`. -/
theorem loadFromStorage_failure (s : AppState) (hinit : s.posts = [])
    (hbad : s.storage = none ∨ s.storage = some StoredData.garbage) :
    (loadFromStorage s).posts = [] := by
  rcases hbad with h | h <;> simp [loadFromStorage, h, hinit]

/-- Witness for C9 at a concrete state. -/
theorem loadFromStorage_failure_witness :
    (loadFromStorage initialState).posts = [] :=
  loadFromStorage_failure initialState (by decide) (Or.inl (by decide))

/-- Claim C1: `createPost` prepends a post built from exactly the given
title, author and body, the freshly generated id and the current time;
the length grows by one, the tail is the previous list unchanged, the full
new list is persisted, freshness of the id preserves id-uniqueness, and
creating N posts from the initial state yields a list of length N
(newest-first by construction, since each creation prepends). -/
theorem createPost_spec (s : AppState) (title author body newId : String) (now : Nat) :
    (createPost title author body newId now s).posts =
      ⟨newId, title, author, body, now⟩ :: s.posts ∧
    (createPost title author body newId now s).posts.length = s.posts.length + 1 ∧
    (createPost title author body newId now s).storage =
      some (StoredData.list ((createPost title author body newId now s).posts.map serializePost)) ∧
    (newId ∉ s.posts.map BlogPost.id → (s.posts.map BlogPost.id).Nodup →
      ((createPost title author body newId now s).posts.map BlogPost.id).Nodup) ∧
    ∀ inputs : List (String × String × String × String × Nat),
      (createMany inputs initialState).posts.length = inputs.length := by
  refine ⟨rfl, rfl, rfl, ?_, ?_⟩
  · intro hfresh hnd
    refine List.Nodup.cons ?_ hnd
    simpa using hfresh
  · intro inputs
    induction inputs with
    | nil => rfl
    | cons x rest ih =>
      obtain ⟨t, a, b, i, n⟩ := x
      simp [createMany, createPost, saveToStorage, ih]

/-- Witness for C1: the freshness implication at a concrete creation. -/
theorem createPost_spec_witness :
    ((createPost "t" "a" "b" "id1" 5 initialState).posts.map BlogPost.id).Nodup :=
  (createPost_spec initialState "t" "a" "b" "id1" 5).2.2.2.1 (by decide) (by decide)

/-- Claim C3: updating or (confirmed) deleting an id that matches no post
is a silent no-op on the post list: `updatePost` leaves the whole state
unchanged, a confirmed `deletePost` leaves the posts (and the editing
state) unchanged, and a declined `deletePost` changes nothing at all. -/
theorem unknownId_noop (s : AppState) (id title author body : String)
    (h : ∀ p ∈ s.posts, p.id ≠ id) :
    updatePost id title author body s = s ∧
    (deletePost id true s).posts = s.posts ∧
    (deletePost id true s).currentEditingId = s.currentEditingId ∧
    deletePost id false s = s := by
  have hf : s.posts.find? (fun p => p.id == id) = none := by
    rw [List.find?_eq_none]
    intro p hp
    simpa using h p hp
  refine ⟨?_, ?_, rfl, rfl⟩
  · simp [updatePost, hf]
  · have hfil : s.posts.filter (fun p => p.id != id) = s.posts := by
      rw [List.filter_eq_self]
      intro p hp
      simpa using h p hp
    simp [deletePost, saveToStorage, hfil]

/-- Witness for C3 at a concrete one-post state and a different id. -/
theorem unknownId_noop_witness :
    updatePost "nope" "t" "a" "b"
      { posts := [⟨"id1", "t0", "a0", "b0", 3⟩], storage := none, currentEditingId := none } =
      { posts := [⟨"id1", "t0", "a0", "b0", 3⟩], storage := none, currentEditingId := none } :=
  (unknownId_noop
    { posts := [⟨"id1", "t0", "a0", "b0", 3⟩], storage := none, currentEditingId := none }
    "nope" "t" "a" "b" (by decide)).1

/-- With unique ids, a post occurring in the middle of the list has an id
distinct from every id before and after it. -/
theorem nodup_ids_split (l1 l2 : List BlogPost) (p : BlogPost)
    (hnd : ((l1 ++ p :: l2).map BlogPost.id).Nodup) :
    (∀ q ∈ l1, q.id ≠ p.id) ∧ ∀ q ∈ l2, q.id ≠ p.id := by
  rw [List.map_append, List.map_cons, List.nodup_append] at hnd
  obtain ⟨_, h2, hdisj⟩ := hnd
  constructor
  · intro q hq heq
    exact hdisj (List.mem_map_of_mem BlogPost.id hq) (heq ▸ List.mem_cons_self _ _)
  · intro q hq heq
    rw [List.nodup_cons] at h2
    exact h2.1 (heq ▸ List.mem_map_of_mem BlogPost.id hq)

/-- The JS `Array.prototype.find` returns the first match: over a list whose
first segment has no matching id, it returns the matching middle
element. -/
theorem find?_append_first (id : String) (p : BlogPost) (hpid : p.id = id) :
    ∀ l1 l2 : List BlogPost, (∀ q ∈ l1, q.id ≠ id) →
      (l1 ++ p :: l2).find? (fun q => q.id == id) = some p := by
  intro l1
  induction l1 with
  | nil =>
    intro l2 _
    simp [List.find?, hpid]
  | cons q l1 ih =>
    intro l2 hq
    have hqid : q.id ≠ id := hq q (List.mem_cons_self q l1)
    simp only [List.cons_append, List.find?]
    rw [show (q.id == id) = false by simpa using hqid]
    exact ih l2 fun r hr => hq r (List.mem_cons_of_mem q hr)

/-- The function `updateFirst` skips a non-matching first segment and rewrites the
matching element in place. -/
theorem updateFirst_append (id title author body : String) (p : BlogPost)
    (hpid : p.id = id) :
    ∀ l1 l2 : List BlogPost, (∀ q ∈ l1, q.id ≠ id) →
      updateFirst id title author body (l1 ++ p :: l2) =
        l1 ++ { p with title := title, author := author, body := body } :: l2 := by
  intro l1
  induction l1 with
  | nil =>
    intro l2 _
    simp [updateFirst, hpid]
  | cons q l1 ih =>
    intro l2 hq
    have hqid : q.id ≠ id := hq q (List.mem_cons_self q l1)
    simp only [List.cons_append, updateFirst, if_neg hqid]
    exact congrArg (q :: ·) (ih l2 fun r hr => hq r (List.mem_cons_of_mem q hr))

/-- Claim C2: when the list has unique ids and contains the target id,
`updatePost` overwrites exactly that post's three mutable fields in place
(id and timestamp preserved), leaves every other post and the list order
unchanged, persists the resulting list, and does not touch the editing
state. -/
theorem updatePost_found (s : AppState) (id title author body : String)
    (hnd : (s.posts.map BlogPost.id).Nodup)
    (hmem : ∃ p ∈ s.posts, p.id = id) :
    ∃ l1 p l2,
      s.posts = l1 ++ p :: l2 ∧ p.id = id ∧
      (∀ q ∈ l1, q.id ≠ id) ∧ (∀ q ∈ l2, q.id ≠ id) ∧
      (updatePost id title author body s).posts =
        l1 ++ { id := p.id, title := title, author := author, body := body,
                timestamp := p.timestamp } :: l2 ∧
      (updatePost id title author body s).storage =
        some (StoredData.list
          ((updatePost id title author body s).posts.map serializePost)) ∧
      (updatePost id title author body s).currentEditingId = s.currentEditingId := by
  obtain ⟨p, hp, hpid⟩ := hmem
  obtain ⟨l1, l2, hsplit⟩ := List.append_of_mem hp
  have hnd2 : ((l1 ++ p :: l2).map BlogPost.id).Nodup := hsplit ▸ hnd
  obtain ⟨h1, h2⟩ := nodup_ids_split l1 l2 p hnd2
  have h1' : ∀ q ∈ l1, q.id ≠ id := fun q hq => hpid ▸ h1 q hq
  have h2' : ∀ q ∈ l2, q.id ≠ id := fun q hq => hpid ▸ h2 q hq
  have hfind : s.posts.find? (fun q => q.id == id) = some p := by
    rw [hsplit]; exact find?_append_first id p hpid l1 l2 h1'
  have hupd : updatePost id title author body s =
      saveToStorage { s with posts := updateFirst id title author body s.posts } := by
    unfold updatePost
    rw [hfind]
  have hposts : (updatePost id title author body s).posts =
      l1 ++ { p with title := title, author := author, body := body } :: l2 := by
    rw [hupd]
    show updateFirst id title author body s.posts = _
    rw [hsplit]
    exact updateFirst_append id title author body p hpid l1 l2 h1'
  refine ⟨l1, p, l2, hsplit, hpid, h1', h2', hposts, ?_, ?_⟩
  · rw [hupd]; rfl
  · rw [hupd]; rfl

/-- Witness for C2 at a concrete two-post state. -/
theorem updatePost_found_witness :
    ∃ l1 p l2,
      ([⟨"i1", "t1", "a1", "b1", 1⟩, ⟨"i2", "t2", "a2", "b2", 2⟩] : List BlogPost) =
        l1 ++ p :: l2 ∧ p.id = "i2" ∧
      (∀ q ∈ l1, q.id ≠ "i2") ∧ (∀ q ∈ l2, q.id ≠ "i2") ∧
      (updatePost "i2" "T" "A" "B"
        { posts := [⟨"i1", "t1", "a1", "b1", 1⟩, ⟨"i2", "t2", "a2", "b2", 2⟩],
          storage := none, currentEditingId := none }).posts =
        l1 ++ { id := p.id, title := "T", author := "A", body := "B",
                timestamp := p.timestamp } :: l2 ∧
      (updatePost "i2" "T" "A" "B"
        { posts := [⟨"i1", "t1", "a1", "b1", 1⟩, ⟨"i2", "t2", "a2", "b2", 2⟩],
          storage := none, currentEditingId := none }).storage =
        some (StoredData.list
          ((updatePost "i2" "T" "A" "B"
            { posts := [⟨"i1", "t1", "a1", "b1", 1⟩, ⟨"i2", "t2", "a2", "b2", 2⟩],
              storage := none, currentEditingId := none }).posts.map serializePost)) ∧
      (updatePost "i2" "T" "A" "B"
        { posts := [⟨"i1", "t1", "a1", "b1", 1⟩, ⟨"i2", "t2", "a2", "b2", 2⟩],
          storage := none, currentEditingId := none }).currentEditingId = none :=
  updatePost_found
    { posts := [⟨"i1", "t1", "a1", "b1", 1⟩, ⟨"i2", "t2", "a2", "b2", 2⟩],
      storage := none, currentEditingId := none }
    "i2" "T" "A" "B" (by decide) ⟨⟨"i2", "t2", "a2", "b2", 2⟩, by decide, rfl⟩

/-- Claim C4: with unique ids and a matching post present, a confirmed
`deletePost` removes exactly that one post, keeps the relative order of
the rest, and persists the resulting list. -/
theorem deletePost_found (s : AppState) (id : String)
    (hnd : (s.posts.map BlogPost.id).Nodup)
    (hmem : ∃ p ∈ s.posts, p.id = id) :
    ∃ l1 p l2,
      s.posts = l1 ++ p :: l2 ∧ p.id = id ∧
      (deletePost id true s).posts = l1 ++ l2 ∧
      (deletePost id true s).posts.length + 1 = s.posts.length ∧
      (deletePost id true s).storage =
        some (StoredData.list ((l1 ++ l2).map serializePost)) := by
  obtain ⟨p, hp, hpid⟩ := hmem
  obtain ⟨l1, l2, hsplit⟩ := List.append_of_mem hp
  have hnd2 : ((l1 ++ p :: l2).map BlogPost.id).Nodup := hsplit ▸ hnd
  obtain ⟨h1, h2⟩ := nodup_ids_split l1 l2 p hnd2
  have hfil : (l1 ++ p :: l2).filter (fun q => q.id != id) = l1 ++ l2 := by
    rw [List.filter_append, List.filter_cons]
    have hp0 : (p.id != id) = false := by simp [hpid]
    rw [hp0]
    simp only [Bool.false_eq_true, if_false]
    rw [List.filter_eq_self.mpr, List.filter_eq_self.mpr]
    · intro q hq; simpa [hpid] using h2 q hq
    · intro q hq; simpa [hpid] using h1 q hq
  have hposts : (deletePost id true s).posts = l1 ++ l2 := by
    show s.posts.filter (fun q => q.id != id) = l1 ++ l2
    rw [hsplit]; exact hfil
  refine ⟨l1, p, l2, hsplit, hpid, hposts, ?_, ?_⟩
  · rw [hposts, hsplit]
    simp only [List.length_append, List.length_cons]
    omega
  · show some (StoredData.list ((s.posts.filter fun q => q.id != id).map serializePost)) = _
    rw [hsplit, hfil]

/-- Witness for C4 at a concrete two-post state. -/
theorem deletePost_found_witness :
    ∃ l1 p l2,
      ([⟨"i1", "t1", "a1", "b1", 1⟩, ⟨"i2", "t2", "a2", "b2", 2⟩] : List BlogPost) =
        l1 ++ p :: l2 ∧ p.id = "i1" ∧
      (deletePost "i1" true
        { posts := [⟨"i1", "t1", "a1", "b1", 1⟩, ⟨"i2", "t2", "a2", "b2", 2⟩],
          storage := none, currentEditingId := none }).posts = l1 ++ l2 ∧
      (deletePost "i1" true
        { posts := [⟨"i1", "t1", "a1", "b1", 1⟩, ⟨"i2", "t2", "a2", "b2", 2⟩],
          storage := none, currentEditingId := none }).posts.length + 1 =
        ([⟨"i1", "t1", "a1", "b1", 1⟩, ⟨"i2", "t2", "a2", "b2", 2⟩] : List BlogPost).length ∧
      (deletePost "i1" true
        { posts := [⟨"i1", "t1", "a1", "b1", 1⟩, ⟨"i2", "t2", "a2", "b2", 2⟩],
          storage := none, currentEditingId := none }).storage =
        some (StoredData.list ((l1 ++ l2).map serializePost)) :=
  deletePost_found
    { posts := [⟨"i1", "t1", "a1", "b1", 1⟩, ⟨"i2", "t2", "a2", "b2", 2⟩],
      storage := none, currentEditingId := none }
    "i1" (by decide) ⟨⟨"i1", "t1", "a1", "b1", 1⟩, by decide, rfl⟩

/-- A post authored by "Ann", for the filter examples. -/
def annPost : BlogPost := ⟨"p1", "t1", "Ann", "b1", 1⟩

/-- A post authored by "Anna", for the filter examples. -/
def annaPost : BlogPost := ⟨"p2", "t2", "Anna", "b2", 2⟩

/-- A post authored by "Joanna", for the filter examples. -/
def joannaPost : BlogPost := ⟨"p3", "t3", "Joanna", "b3", 3⟩

/-- A post authored by "Bob", for the filter examples. -/
def bobPost : BlogPost := ⟨"p4", "t4", "Bob", "b4", 4⟩

/-- A concrete state holding the four example posts. -/
def exampleState : AppState :=
  { posts := [annPost, annaPost, joannaPost, bobPost],
    storage := none, currentEditingId := none }

/-- Claim C5: the list operation keeps exactly the posts whose author
contains the filter string as a case-insensitive substring (both sides
lower-cased), an empty filter keeps every post, and in particular the
filter "ann" matches authors "Ann", "Anna" and "Joanna" but not "Bob". -/
theorem filter_by_author (s : AppState) (filterValue sortBy : String) :
    (∀ p : BlogPost,
      p ∈ (getFilteredAndSortedPosts filterValue sortBy s).1 ↔
        p ∈ s.posts ∧
          (jsToLower filterValue = "" ∨
            (jsToLower filterValue).data <:+: (jsToLower p.author).data)) ∧
    annPost ∈ (getFilteredAndSortedPosts "ann" "date" exampleState).1 ∧
    annaPost ∈ (getFilteredAndSortedPosts "ann" "date" exampleState).1 ∧
    joannaPost ∈ (getFilteredAndSortedPosts "ann" "date" exampleState).1 ∧
    bobPost ∉ (getFilteredAndSortedPosts "ann" "date" exampleState).1 := by
  refine ⟨?_, by decide, by decide, by decide, by decide⟩
  intro p
  show p ∈ List.insertionSort (sortRel sortBy)
      (if jsToLower filterValue = "" then s.posts
       else s.posts.filter fun q => jsIncludes (jsToLower q.author) (jsToLower filterValue)) ↔ _
  rw [List.Perm.mem_iff (List.perm_insertionSort _ _)]
  by_cases h : jsToLower filterValue = ""
  · simp [h]
  · simp [h, List.mem_filter, jsIncludes]

/-- Witness for C5: author "Anna" survives the filter "ann". -/
theorem filter_by_author_witness :
    annaPost ∈ (getFilteredAndSortedPosts "ann" "date" exampleState).1 :=
  (filter_by_author exampleState "ann" "date").2.2.1

/-- Claim C6: with sort key "author" the projection is in ascending
lexicographic order of author; with any other sort key it is in descending
order of timestamp; in both cases it is a permutation of the filtered
posts. -/
theorem sorted_projection (s : AppState) (filterValue : String) :
    List.Sorted (fun a b : BlogPost => a.author ≤ b.author)
      (getFilteredAndSortedPosts filterValue "author" s).1 ∧
    (∀ sortBy : String, sortBy ≠ "author" →
      List.Sorted (fun a b : BlogPost => b.timestamp ≤ a.timestamp)
        (getFilteredAndSortedPosts filterValue sortBy s).1) ∧
    ∀ sortBy : String,
      List.Perm (getFilteredAndSortedPosts filterValue sortBy s).1
        (if jsToLower filterValue = "" then s.posts
         else s.posts.filter fun q => jsIncludes (jsToLower q.author) (jsToLower filterValue)) := by
  refine ⟨?_, ?_, ?_⟩
  · exact (List.sorted_insertionSort (sortRel "author") _).imp
      fun hab => by simpa [sortRel] using hab
  · intro k hk
    exact (List.sorted_insertionSort (sortRel k) _).imp
      fun hab => by simpa [sortRel, hk] using hab
  · intro k
    exact List.perm_insertionSort _ _

/-- Witness for C6: a non-"author" sort key at a concrete state. -/
theorem sorted_projection_witness :
    List.Sorted (fun a b : BlogPost => b.timestamp ≤ a.timestamp)
      (getFilteredAndSortedPosts "" "date" exampleState).1 :=
  (sorted_projection exampleState "").2.1 "date" (by decide)

/-- Claim C7: the list operation leaves the state — in particular the
underlying posts list — unchanged, and every post of the projection comes
from the underlying list. -/
theorem projection_frame (s : AppState) (filterValue sortBy : String) :
    (getFilteredAndSortedPosts filterValue sortBy s).2 = s ∧
    ((getFilteredAndSortedPosts filterValue sortBy s).2).posts = s.posts ∧
    ∀ p ∈ (getFilteredAndSortedPosts filterValue sortBy s).1, p ∈ s.posts := by
  refine ⟨rfl, rfl, ?_⟩
  intro p hp
  rw [show (getFilteredAndSortedPosts filterValue sortBy s).1 =
      List.insertionSort (sortRel sortBy)
        (if jsToLower filterValue = "" then s.posts
         else s.posts.filter fun q => jsIncludes (jsToLower q.author) (jsToLower filterValue))
    from rfl] at hp
  rw [List.Perm.mem_iff (List.perm_insertionSort _ _)] at hp
  split at hp
  · exact hp
  · exact (List.mem_filter.mp hp).1

/-- Witness for C7: a concrete member of the projection is in the list. -/
theorem projection_frame_witness : annPost ∈ exampleState.posts :=
  (projection_frame exampleState "" "date").2.2 annPost (by decide)

/-- Counterexample to claim C10 as stated: with the empty string as the
editing id (falsy under the JS `if (currentEditingId)` test) over a list
that does not contain it, submission takes the create branch, so the post
list does not stay unchanged. -/
theorem handleSubmit_stale_edit_counterexample :
    (handleSubmit "T" "A" "B" "fresh" 9
      { posts := [], storage := none, currentEditingId := some "" }).posts ≠ [] ∧
    (handleSubmit "T" "A" "B" "fresh" 9
      { posts := [], storage := none, currentEditingId := some "" }).storage ≠ none := by
  refine ⟨?_, ?_⟩ <;> decide

/-- Claim C10 (amended: the stale editing id must be nonempty, since the
empty string is falsy and routes the submission to the create branch):
submitting while editing a nonempty id that is no longer in the list
leaves the posts and the persisted snapshot unchanged and returns the
form to the idle state (editing id cleared). -/
theorem handleSubmit_stale_edit (s : AppState) (id title author body newId : String)
    (now : Nat) (hid : id ≠ "") (hedit : s.currentEditingId = some id)
    (habs : ∀ p ∈ s.posts, p.id ≠ id) :
    (handleSubmit title author body newId now s).posts = s.posts ∧
    (handleSubmit title author body newId now s).storage = s.storage ∧
    (handleSubmit title author body newId now s).currentEditingId = none := by
  have hf : s.posts.find? (fun p => p.id == id) = none := by
    rw [List.find?_eq_none]
    intro p hp
    simpa using habs p hp
  have hup : updatePost id title author body s = s := by
    unfold updatePost
    rw [hf]
  have hh : handleSubmit title author body newId now s = resetForm s := by
    have h1 : handleSubmit title author body newId now s =
        resetForm (match s.currentEditingId with
          | some i =>
            if i = "" then createPost title author body newId now s
            else updatePost i title author body s
          | none => createPost title author body newId now s) := rfl
    rw [h1, hedit]
    show resetForm (if id = "" then createPost title author body newId now s
      else updatePost id title author body s) = _
    rw [if_neg hid, hup]
  rw [hh]
  exact ⟨rfl, rfl, rfl⟩

/-- Witness for C10: editing id "gone" over a one-post list without it. -/
theorem handleSubmit_stale_edit_witness :
    (handleSubmit "T" "A" "B" "fresh" 9
      { posts := [⟨"i1", "t1", "a1", "b1", 1⟩], storage := none,
        currentEditingId := some "gone" }).posts = [⟨"i1", "t1", "a1", "b1", 1⟩] :=
  (handleSubmit_stale_edit
    { posts := [⟨"i1", "t1", "a1", "b1", 1⟩], storage := none,
      currentEditingId := some "gone" }
    "gone" "T" "A" "B" "fresh" 9 (by decide) rfl (by decide)).1

end BlogPostManager
